import Mathlib

/-
Verification of the data-processing logic of `app.py` (Harvesting Media data
processor).  The Python source is shallowly embedded below: pure helpers are
Lean functions; the Google-Sheets worksheet is a list of rows; the Streamlit
session state is an association list; the uploaded file is a record holding
its name and textual content together with the read position of its stream.
-/

namespace Certo

/-- Whitespace characters recognized by Python `str.split()` (ASCII fragment:
space, tab, newline, carriage return, vertical tab, form feed). -/
def pyIsSpace (c : Char) : Bool :=
  c = ' ' || c = '\t' || c = '\n' || c = '\r' || c = Char.ofNat 11 || c = Char.ofNat 12

/-- The ASCII case table: each uppercase letter paired with its lowercase form.
Models the (ASCII fragment of the) case mapping used by Python `str.lower`,
`str.upper` and `str.capitalize`. -/
def caseTable : List (Char × Char) :=
  [('A', 'a'), ('B', 'b'), ('C', 'c'), ('D', 'd'), ('E', 'e'), ('F', 'f'),
   ('G', 'g'), ('H', 'h'), ('I', 'i'), ('J', 'j'), ('K', 'k'), ('L', 'l'),
   ('M', 'm'), ('N', 'n'), ('O', 'o'), ('P', 'p'), ('Q', 'q'), ('R', 'r'),
   ('S', 's'), ('T', 't'), ('U', 'u'), ('V', 'v'), ('W', 'w'), ('X', 'x'),
   ('Y', 'y'), ('Z', 'z')]

/-- Lower-case one character (Python `str.lower`, per character). -/
def pyLower (c : Char) : Char :=
  match caseTable.find? (fun p => p.1 = c) with
  | some p => p.2
  | none => c

/-- Upper-case one character (Python `str.upper`, per character). -/
def pyUpper (c : Char) : Char :=
  match caseTable.find? (fun p => p.2 = c) with
  | some p => p.1
  | none => c

/-- Lower-case a whole string, as `pandas.Series.str.lower` does per cell. -/
def pyLowerStr (s : String) : String :=
  String.mk (s.data.map pyLower)

/-- One step of splitting, scanning from the right: a whitespace character
opens a fresh (empty) group, any other character is prepended to the current
head group. -/
def splitStep (c : Char) (gs : List (List Char)) : List (List Char) :=
  if pyIsSpace c then [] :: gs
  else
    match gs with
    | [] => [[c]]
    | g :: rest => (c :: g) :: rest

/-- Python `str.split()` with no argument: split on runs of whitespace,
discarding empty tokens (leading/trailing whitespace yields no token). -/
def pySplit (l : List Char) : List (List Char) :=
  (l.foldr splitStep []).filter (fun g => !g.isEmpty)

/-- Python `str.capitalize()`: first character upper-cased, the rest
lower-cased. -/
def pyCapitalize (l : List Char) : List Char :=
  match l with
  | [] => []
  | c :: cs => pyUpper c :: cs.map pyLower

/-- The per-word transformation `word.lower().capitalize()` from
`format_name` in `app.py`. -/
def fmtWord (w : List Char) : List Char :=
  pyCapitalize (w.map pyLower)

/-- Python single-space `str.join`: the given chunks separated by one space
character. -/
def joinWords : List (List Char) → List Char
  | [] => []
  | [w] => w
  | w :: ws => w ++ ' ' :: joinWords ws

/-- `format_name` from `app.py` on an actual string (the non-NaN branch):
`return ' '.join(word.lower().capitalize() for word in str(name).split())`. -/
def format_name (s : String) : String :=
  String.mk (joinWords ((pySplit s.data).map fmtWord))

/-- A cell of a table: `none` models a missing value (pandas `NaN`/`NaT`). -/
abbrev Cell : Type := Option String

/-- `format_name` from `app.py` as applied by `Series.apply`: the
`pd.isna(name)` guard returns missing values unchanged. -/
def formatNameCell : Cell → Cell
  | none => none
  | some s => some (format_name s)

/-- `Series.str.lower`: missing values stay missing, strings are
lower-cased. -/
def lowerCell : Cell → Cell
  | none => none
  | some s => some (pyLowerStr s)

/-- A parsed table: column names in order, and the rows of cells. -/
structure Table where
  cols : List String
  rows : List (List Cell)
deriving DecidableEq

/-- A field of a delimited line becomes a cell; an empty field is a missing
value (pandas reads it as NaN). -/
def cellOfField (f : List Char) : Cell :=
  if f.isEmpty then none else some (String.mk f)

/-- The lines pandas considers: content split on newlines, blank lines
skipped (default skip_blank_lines=True). -/
def pdLines (content : List Char) : List (List Char) :=
  (content.splitOn '\n').filter (fun l => !l.isEmpty)

/-- One data line of read_csv: split on the separator; a line with more
fields than the header errors (pandas tokenizer), one with fewer is padded
with missing values. -/
def parseRow (sep : Char) (ncols : Nat) (line : List Char) : Except String (List Cell) :=
  let cells := line.splitOn sep
  if cells.length > ncols then .error "Error tokenizing data"
  else .ok ((cells.map cellOfField) ++ List.replicate (ncols - cells.length) (none : Cell))

/-- Models pandas read_csv applied to the given textual content with the given
separator.  With no (non-blank) line at all it raises EmptyDataError; the
first line fixes the column count, and names the columns when has_headers. -/
def parseDelim (sep : Char) (content : List Char) (hasHeaders : Bool) : Except String Table :=
  match pdLines content with
  | [] => .error "No columns to parse from file"
  | first :: rest =>
    let firstCells := first.splitOn sep
    let ncols := firstCells.length
    let cols := if hasHeaders then firstCells.map String.mk
      else (List.range ncols).map (fun i => toString i)
    let dataLines := if hasHeaders then rest else first :: rest
    match dataLines.mapM (parseRow sep ncols) with
    | .ok rows => .ok ⟨cols, rows⟩
    | .error e => .error e

/-- An uploaded file: its name, its textual content, and the result the
external Excel parser (pandas read_excel) would produce from its bytes.  The
read position of its stream is passed separately where it matters. -/
structure UploadedFile where
  name : String
  content : String
  excelResult : Except String Table

/-- Models pd.read_csv on the file object: it parses the part of the stream
after the current read position and leaves the stream fully consumed (pandas
does not rewind a file object it is handed). -/
def readCsvAt (sep : Char) (f : UploadedFile) (pos : Nat) (hasHeaders : Bool) :
    Except String Table × Nat :=
  (parseDelim sep (f.content.data.drop pos) hasHeaders, f.content.data.length)

/-- Python str.endswith: does the name end with the given suffix? -/
def pyEndsWith (s suffix : String) : Bool :=
  suffix.data.isSuffixOf s.data

/-- The outer try/except of read_file: any error is re-raised as a
ValueError with a descriptive prefix. -/
def wrapReadError : Except String Table → Except String Table
  | .ok t => .ok t
  | .error e => .error ("Error reading file: " ++ e)

/-- read_file from app.py.  Dispatch on the file extension; for .txt, first
try the comma separator and accept the result only if it has more than one
column, otherwise retry with the tab separator — on the same stream, whose
position after the first attempt is at end of file. -/
def read_file (f : UploadedFile) (has_headers : Bool) : Except String Table :=
  wrapReadError <|
    if pyEndsWith f.name ".csv" then
      (readCsvAt ',' f 0 has_headers).1
    else if pyEndsWith f.name ".xlsx" then
      f.excelResult
    else if pyEndsWith f.name ".txt" then
      match readCsvAt ',' f 0 has_headers with
      | (.ok df, pos1) =>
        if df.cols.length > 1 then .ok df
        else (readCsvAt '\t' f pos1 has_headers).1
      | (.error _, pos1) => (readCsvAt '\t' f pos1 has_headers).1
    else
      .error "Unsupported file format. Please upload CSV, XLSX, or TXT file."

/-- A calendar date as produced by the date parser. -/
structure PDate where
  y : Nat
  m : Nat
  d : Nat
deriving DecidableEq

/-- Value of a nonempty all-digit run. -/
def digitsVal (l : List Char) : Option Nat :=
  if !l.isEmpty && l.all (fun c => c.isDigit) then
    some (l.foldl (fun acc c => acc * 10 + (c.toNat - 48)) 0)
  else none

def mkDate (y m d : Nat) : Option PDate :=
  if 1 ≤ m ∧ m ≤ 12 ∧ 1 ≤ d ∧ d ≤ 31 then some ⟨y, m, d⟩ else none

/-- Models the external pandas date parser (pd.to_datetime on one string) on
the formats exercised here: YYYY-MM-DD and M/D/YYYY.  Anything else fails to
parse. -/
def parseDate (s : String) : Option PDate :=
  match s.data.splitOn '-' with
  | [ys, ms, ds] =>
    match digitsVal ys, digitsVal ms, digitsVal ds with
    | some y, some m, some d => mkDate y m d
    | _, _, _ => none
  | _ =>
    match s.data.splitOn '/' with
    | [ms, ds, ys] =>
      match digitsVal ms, digitsVal ds, digitsVal ys with
      | some m, some d, some y => mkDate y m d
      | _, _, _ => none
    | _ => none

def pad2 (n : Nat) : String :=
  if n < 10 then "0" ++ toString n else toString n

def pad4 (n : Nat) : String :=
  if n < 10 then "000" ++ toString n
  else if n < 100 then "00" ++ toString n
  else if n < 1000 then "0" ++ toString n
  else toString n

/-- strftime with format string percent-Y dash percent-m dash percent-d. -/
def strftimeYmd (d : PDate) : String :=
  pad4 d.y ++ "-" ++ pad2 d.m ++ "-" ++ pad2 d.d

/-- One cell of pd.to_datetime(col).dt.strftime: a missing value stays
missing (NaT maps to NaN), a parsable string is reformatted, and an
unparsable string raises (pd.to_datetime defaults to errors=raise). -/
def tdCell : Cell → Except String Cell
  | none => .ok none
  | some s =>
    match parseDate s with
    | some d => .ok (some (strftimeYmd d))
    | none => .error ("Unknown datetime string format, unable to parse: " ++ s)

/-- pd.to_datetime(col).dt.strftime over a whole column: the first
unparsable value makes the whole column conversion raise. -/
def toDatetimeFmt : List Cell → Except String (List Cell)
  | [] => .ok []
  | c :: cs =>
    match tdCell c, toDatetimeFmt cs with
    | .ok c', .ok cs' => .ok (c' :: cs')
    | .error e, _ => .error e
    | .ok _, .error e => .error e

/-- The three processes offered by the selectbox in main. -/
inductive Process
  | certoMarket
  | ferreira
  | visitsReport
deriving DecidableEq

/-- The column selections made in the mapping UI.  Each selectbox draws from
df.columns, so in any reachable state every used field names an existing
column; the model keeps them as plain strings. -/
structure ColMapping where
  name_col : String
  email_col : String
  phone_col : String
  reg_date_col : String
  first_order_col : String
  spent_col : String
  first_name_col : String
  store_col : String

/-- df[c]: the column named c, as a list of cells (one per row). -/
def getCol (t : Table) (c : String) : List Cell :=
  match t.cols.indexOf? c with
  | some i => t.rows.map (fun r => r.getD i none)
  | none => t.rows.map (fun _ => none)

/-- Rebuild rows from a list of columns, for a frame of n rows (the
DataFrame constructor aligns the given columns by index). -/
def rowsFromCols (n : Nat) (cs : List (List Cell)) : List (List Cell) :=
  (List.range n).map (fun i => cs.map (fun c => c.getD i none))

def visitsHeaders : List String :=
  ["Name", "Email", "Phone", "Registered Date", "First Order Date", "Spent $"]

def stdHeaders : List String := ["Email", "First Name", "Phone"]

/-- The construction of processed_df in main: for the visits report six fixed
columns with name formatting, e-mail lowering and two date reformattings; for
the other two processes three fixed columns, with a Store Number column
appended for Ferreira. -/
def buildOutput (p : Process) (df : Table) (m : ColMapping) : Except String Table :=
  match p with
  | .visitsReport => do
    let reg ← toDatetimeFmt (getCol df m.reg_date_col)
    let fo ← toDatetimeFmt (getCol df m.first_order_col)
    .ok ⟨visitsHeaders,
      rowsFromCols df.rows.length
        [(getCol df m.name_col).map formatNameCell,
         (getCol df m.email_col).map lowerCell,
         getCol df m.phone_col, reg, fo, getCol df m.spent_col]⟩
  | .certoMarket =>
    .ok ⟨stdHeaders,
      rowsFromCols df.rows.length
        [(getCol df m.email_col).map lowerCell,
         (getCol df m.first_name_col).map formatNameCell,
         getCol df m.phone_col]⟩
  | .ferreira =>
    .ok ⟨stdHeaders ++ ["Store Number"],
      rowsFromCols df.rows.length
        [(getCol df m.email_col).map lowerCell,
         (getCol df m.first_name_col).map formatNameCell,
         getCol df m.phone_col, getCol df m.store_col]⟩

/-- A worksheet is the list of its populated rows (top to bottom), each row a
list of string values, as returned by worksheet.get_all_values(). -/
abbrev Worksheet : Type := List (List String)

/-- fillna applied when saving: a missing cell becomes the empty string. -/
def cellToStr : Cell → String
  | none => ""
  | some s => s

/-- df.fillna followed by .values.tolist(): the grid of strings written. -/
def cleanRows (t : Table) : List (List String) :=
  t.rows.map (fun r => r.map cellToStr)

/-- Write one row at 1-indexed position i, extending the grid with empty
rows as needed. -/
def setRow (w : Worksheet) (i : Nat) (r : List String) : Worksheet :=
  if i ≤ w.length then w.set (i - 1) r
  else w ++ List.replicate (i - 1 - w.length) [] ++ [r]

/-- Write consecutive rows starting at 1-indexed position start: models
worksheet.append_rows with table_range at row start. -/
def writeRowsAt (w : Worksheet) (start : Nat) (rows : List (List String)) : Worksheet :=
  match rows with
  | [] => w
  | r :: rs => writeRowsAt (setRow w start r) (start + 1) rs

/-- save_to_gsheets from app.py: reads last_row as the number of populated
rows, cleans the frame, and appends its rows starting at row last_row + 1. -/
def save_to_gsheets (df : Table) (w : Worksheet) : Worksheet :=
  writeRowsAt w (w.length + 1) (cleanRows df)

/-- worksheet.append_row: one row appended after the populated rows. -/
def append_row (w : Worksheet) (r : List String) : Worksheet := w ++ [r]

/-- The write phase of main: for the visits report the worksheet is first
cleared and the fixed header row appended, then save_to_gsheets runs; for the
other processes save_to_gsheets runs on the worksheet as found. -/
def mainWrite (p : Process) (out : Table) (w : Worksheet) : Worksheet :=
  if p = .visitsReport then
    save_to_gsheets out (append_row ([] : Worksheet) visitsHeaders)
  else
    save_to_gsheets out w

/-- The processing pipeline of main from the parsed source table to the final
worksheet contents: build the output table, then write it. -/
def processAndSave (p : Process) (df : Table) (m : ColMapping) (w : Worksheet) :
    Except String Worksheet := do
  let out ← buildOutput p df m
  .ok (mainWrite p out w)

/-- The Streamlit session state: keys with their values, in insertion
order. -/
abbrev SessionState (V : Type) : Type := List (String × V)

/-- clear_session_state from app.py: every key other than password_correct
is deleted. -/
def clear_session_state {V : Type} (st : SessionState V) : SessionState V :=
  st.filter (fun p => p.1 == "password_correct")

/-- on_process_change from app.py simply clears the session state. -/
def on_process_change {V : Type} (st : SessionState V) : SessionState V :=
  clear_session_state st

theorem setRow_next (w : Worksheet) (r : List String) :
    setRow w (w.length + 1) r = w ++ [r] := by
  unfold setRow
  rw [if_neg (by omega)]
  simp

theorem writeRowsAt_append (rows : List (List String)) (w : Worksheet) :
    writeRowsAt w (w.length + 1) rows = w ++ rows := by
  induction rows generalizing w with
  | nil => simp [writeRowsAt]
  | cons r rs ih =>
    rw [writeRowsAt, setRow_next]
    calc writeRowsAt (w ++ [r]) (w.length + 1 + 1) rs
        = writeRowsAt (w ++ [r]) ((w ++ [r]).length + 1) rs := by simp
      _ = (w ++ [r]) ++ rs := ih _
      _ = w ++ (r :: rs) := by simp

theorem save_to_gsheets_eq (df : Table) (w : Worksheet) :
    save_to_gsheets df w = w ++ cleanRows df := by
  unfold save_to_gsheets
  exact writeRowsAt_append _ _

theorem length_cleanRows (t : Table) : (cleanRows t).length = t.rows.length := by
  simp [cleanRows]

theorem rowsFromCols_length (n : Nat) (cs : List (List Cell)) :
    (rowsFromCols n cs).length = n := by
  simp [rowsFromCols]

theorem buildOutput_rows_length (p : Process) (df : Table) (m : ColMapping)
    (t : Table) (h : buildOutput p df m = .ok t) :
    t.rows.length = df.rows.length := by
  cases p with
  | certoMarket =>
    simp only [buildOutput] at h
    cases h
    exact rowsFromCols_length _ _
  | ferreira =>
    simp only [buildOutput] at h
    cases h
    exact rowsFromCols_length _ _
  | visitsReport =>
    simp only [buildOutput, bind, Except.bind] at h
    cases hr : toDatetimeFmt (getCol df m.reg_date_col) with
    | error e => rw [hr] at h; cases h
    | ok reg =>
      rw [hr] at h
      cases hf : toDatetimeFmt (getCol df m.first_order_col) with
      | error e => rw [hf] at h; cases h
      | ok fo =>
        rw [hf] at h
        cases h
        exact rowsFromCols_length _ _

/-- C2: for every worksheet with M populated rows and every output table of
N rows, saving in append mode leaves the first M rows unchanged and results
in exactly M + N populated rows; no existing row is overwritten. -/
theorem append_mode_preserves_rows (df : Table) (w : Worksheet) :
    (save_to_gsheets df w).take w.length = w ∧
    (save_to_gsheets df w).length = w.length + df.rows.length ∧
    ∀ i, i < w.length → (save_to_gsheets df w)[i]? = w[i]? := by
  rw [save_to_gsheets_eq]
  refine ⟨List.take_left _ _, ?_, ?_⟩
  · simp [length_cleanRows]
  · intro i hi
    rw [List.getElem?_append_left hi]

/-- Witness for C2 at a concrete worksheet and table. -/
theorem append_mode_preserves_rows_witness :
    (2 : Nat) < ([["h", "x"], ["a", "b"], ["c", "d"]] : Worksheet).length ∧
    (save_to_gsheets ⟨["A"], [[some "u"], [none]]⟩
        [["h", "x"], ["a", "b"], ["c", "d"]])[2]? =
      ([["h", "x"], ["a", "b"], ["c", "d"]] : Worksheet)[2]? :=
  ⟨by decide,
   (append_mode_preserves_rows ⟨["A"], [[some "u"], [none]]⟩
     [["h", "x"], ["a", "b"], ["c", "d"]]).2.2 2 (by decide)⟩

theorem processAndSave_eq (p : Process) (df : Table) (m : ColMapping) (w : Worksheet) :
    processAndSave p df m w =
      (buildOutput p df m).map (fun out => mainWrite p out w) := by
  unfold processAndSave
  cases buildOutput p df m <;> rfl

/-- C3: processing with the Certo Market Visits Report process (overwrite
mode) leaves the worksheet with exactly 1 header row plus N data rows
populated, regardless of what the worksheet contained before (the same
result is produced from any other prior worksheet contents). -/
theorem overwrite_mode_row_count (df : Table) (m : ColMapping) (w w₂ w' : Worksheet)
    (h : processAndSave .visitsReport df m w = .ok w') :
    w'.length = 1 + df.rows.length ∧ w'.head? = some visitsHeaders ∧
    processAndSave .visitsReport df m w₂ = .ok w' := by
  rw [processAndSave_eq] at h
  rw [processAndSave_eq]
  cases hb : buildOutput .visitsReport df m with
  | error e =>
    rw [hb] at h
    cases h
  | ok out =>
    rw [hb] at h
    simp only [Except.map] at h
    have hw : w' = mainWrite .visitsReport out w := by
      cases h
      rfl
    have hmw : ∀ v : Worksheet,
        mainWrite .visitsReport out v = [visitsHeaders] ++ cleanRows out := by
      intro v
      unfold mainWrite
      rw [if_pos rfl, save_to_gsheets_eq]
      rfl
    refine ⟨?_, ?_, ?_⟩
    · rw [hw, hmw]
      simp only [List.length_append, List.length_singleton,
        length_cleanRows, buildOutput_rows_length _ _ _ _ hb]
    · rw [hw, hmw]
      rfl
    · rw [hw, hmw w]
      simp only [Except.map]
      rw [hmw w₂]

/-- A concrete source table for the visits-report process. -/
def dfVisitsEx : Table := ⟨["n", "e", "p", "r", "f", "s"],
  [[some "BOB JONES", some "A@B.Com", some "555", some "2024-01-02",
    some "1/2/2024", some "5"]]⟩

/-- A concrete column mapping for dfVisitsEx. -/
def mVisitsEx : ColMapping := ⟨"n", "e", "p", "r", "f", "s", "", ""⟩

/-- The worksheet produced from dfVisitsEx. -/
def wVisitsEx : Worksheet :=
  [["Name", "Email", "Phone", "Registered Date", "First Order Date", "Spent $"],
   ["Bob Jones", "a@b.com", "555", "2024-01-02", "2024-01-02", "5"]]

/-- Witness for C3: the overwrite pipeline run on a concrete prior worksheet. -/
theorem overwrite_mode_row_count_witness :
    wVisitsEx.length = 1 + dfVisitsEx.rows.length ∧
    wVisitsEx.head? = some visitsHeaders ∧
    processAndSave .visitsReport dfVisitsEx mVisitsEx [] = .ok wVisitsEx :=
  overwrite_mode_row_count dfVisitsEx mVisitsEx [["junk"]] [] wVisitsEx (by rfl)

/-- C4: format_name capitalizes exactly at whitespace word boundaries,
lower-casing the rest of each word; characters after a hyphen or apostrophe
inside a word are not capitalized. -/
theorem format_name_examples :
    format_name "JOHN SMITH" = "John Smith" ∧
    format_name (String.mk ['m', 'a', 'r', 'y', '-', 'j', 'a', 'n', 'e', ' ',
        'o', Char.ofNat 39, 'n', 'e', 'i', 'l']) =
      String.mk ['M', 'a', 'r', 'y', '-', 'j', 'a', 'n', 'e', ' ',
        'O', Char.ofNat 39, 'n', 'e', 'i', 'l'] := by
  decide

theorem find?_fst_pyLower (c : Char) :
    caseTable.find? (fun q => q.1 = pyLower c) = none := by
  unfold pyLower
  cases h : caseTable.find? (fun p => p.1 = c) with
  | none => exact h
  | some p =>
    have hp : p ∈ caseTable := List.mem_of_find?_eq_some h
    have hall : ∀ r ∈ caseTable, caseTable.find? (fun q => q.1 = r.2) = none := by
      decide
    exact hall p hp

theorem pyLower_idem (c : Char) : pyLower (pyLower c) = pyLower c := by
  conv_lhs => rw [pyLower.eq_def]
  rw [find?_fst_pyLower]

theorem pyLowerStr_idem (s : String) : pyLowerStr (pyLowerStr s) = pyLowerStr s := by
  show String.mk ((s.data.map pyLower).map pyLower) = String.mk (s.data.map pyLower)
  rw [List.map_map]
  exact congrArg String.mk (List.map_congr_left fun a _ => pyLower_idem a)

/-- C7: e-mail normalization (lower-casing, as applied per cell by
Series.str.lower) is idempotent: lower-casing twice equals lower-casing
once, so an already-lower-case value is returned unchanged. -/
theorem email_normalization_idem (s : String) (c : Cell) :
    pyLowerStr (pyLowerStr s) = pyLowerStr s ∧
    lowerCell (lowerCell c) = lowerCell c := by
  refine ⟨pyLowerStr_idem s, ?_⟩
  cases c with
  | none => rfl
  | some t =>
    show some (pyLowerStr (pyLowerStr t)) = some (pyLowerStr t)
    rw [pyLowerStr_idem]

theorem lookup_clear_pc {V : Type} (st : SessionState V) :
    (clear_session_state st).lookup "password_correct" =
      st.lookup "password_correct" := by
  induction st with
  | nil => rfl
  | cons e t ih =>
    obtain ⟨k₁, v⟩ := e
    simp only [clear_session_state, List.filter_cons] at *
    by_cases h : k₁ = "password_correct"
    · subst h
      simp [List.lookup, ih]
    · simp [List.lookup, h, ih, beq_false_of_ne (Ne.symm h)]

theorem lookup_clear_other {V : Type} (st : SessionState V) (k : String)
    (hk : k ≠ "password_correct") :
    (clear_session_state st).lookup k = none := by
  induction st with
  | nil => rfl
  | cons e t ih =>
    obtain ⟨k₁, v⟩ := e
    simp only [clear_session_state, List.filter_cons] at *
    by_cases h : k₁ = "password_correct"
    · subst h
      simp [List.lookup, ih, beq_false_of_ne hk]
    · simp [h, ih]

/-- C9: clear_session_state deletes every session-state key except
password_correct, which it leaves unchanged, and on_process_change performs
exactly that clearing. -/
theorem clear_session_state_frame {V : Type} (st : SessionState V) (k : String)
    (hk : k ≠ "password_correct") :
    (clear_session_state st).lookup "password_correct" =
      st.lookup "password_correct" ∧
    (clear_session_state st).lookup k = none ∧
    on_process_change st = clear_session_state st :=
  ⟨lookup_clear_pc st, lookup_clear_other st k hk, rfl⟩

/-- Witness for C9 on a concrete session state. -/
theorem clear_session_state_frame_witness :
    (clear_session_state [("password_correct", true), ("other", false)]).lookup
        "password_correct" =
      ([("password_correct", true), ("other", false)] : SessionState Bool).lookup
        "password_correct" ∧
    (clear_session_state [("password_correct", true), ("other", false)]).lookup
        "other" = none ∧
    on_process_change [("password_correct", true), ("other", false)] =
      clear_session_state [("password_correct", true), ("other", false)] :=
  clear_session_state_frame [("password_correct", true), ("other", false)]
    "other" (by decide)

/-- A .txt upload whose content is tab-separated: the comma parse of the
whole content yields a single column per row. -/
def fTabTxt : UploadedFile := ⟨"data.txt", "a\tb\nc\td", .error "not an xlsx file"⟩

/-- C1 (evaluation at the failing input): for a .txt file whose comma parse
yields one column, read_file does NOT return the tab-parsed table.  The
comma attempt consumed the stream, so the tab retry parses an empty stream
and read_file raises — even though the same content parses with the tab
separator into a two-column table. -/
theorem txt_fallback_fails :
    read_file fTabTxt true =
      .error "Error reading file: No columns to parse from file" ∧
    parseDelim '\t' fTabTxt.content.data true =
      .ok ⟨["a", "b"], [[some "c", some "d"]]⟩ :=
  ⟨rfl, rfl⟩

theorem wrapReadError_error (r : Except String Table) (e : String)
    (h : wrapReadError r = .error e) :
    ∃ e₀, r = .error e₀ ∧ e = "Error reading file: " ++ e₀ := by
  cases r with
  | ok t => cases h
  | error e₀ =>
    refine ⟨e₀, rfl, ?_⟩
    cases h
    rfl

/-- C8: read_file dispatches .csv, .xlsx and .txt uploads to the matching
parser; any other extension and any parse failure is surfaced as an error
carrying the descriptive prefix. -/
theorem read_file_dispatch (f : UploadedFile) (hdr : Bool) :
    (pyEndsWith f.name ".csv" = false → pyEndsWith f.name ".xlsx" = false →
      pyEndsWith f.name ".txt" = false →
      read_file f hdr = .error
        "Error reading file: Unsupported file format. Please upload CSV, XLSX, or TXT file.") ∧
    (pyEndsWith f.name ".csv" = true →
      read_file f hdr = wrapReadError (parseDelim ',' f.content.data hdr)) ∧
    (pyEndsWith f.name ".csv" = false → pyEndsWith f.name ".xlsx" = true →
      read_file f hdr = wrapReadError f.excelResult) ∧
    (∀ e, read_file f hdr = .error e →
      ∃ e₀, e = "Error reading file: " ++ e₀) := by
  refine ⟨?_, ?_, ?_, ?_⟩
  · intro h₁ h₂ h₃
    unfold read_file
    rw [h₁, h₂, h₃]
    rfl
  · intro h₁
    unfold read_file
    rw [h₁]
    simp [readCsvAt]
  · intro h₁ h₂
    unfold read_file
    rw [h₁, h₂]
    rfl
  · intro e h
    unfold read_file at h
    obtain ⟨e₀, _, he⟩ := wrapReadError_error _ _ h
    exact ⟨e₀, he⟩

/-- A file with an unsupported extension. -/
def fPdf : UploadedFile := ⟨"doc.pdf", "x", .error "bad excel bytes"⟩

/-- A .csv file with unparsable (empty) content. -/
def fCsvEmpty : UploadedFile := ⟨"t.csv", "", .error "bad excel bytes"⟩

/-- Witness for C8: a concrete unsupported extension, a concrete dispatch,
and a concrete parse failure. -/
theorem read_file_dispatch_witness :
    read_file fPdf true = .error
      "Error reading file: Unsupported file format. Please upload CSV, XLSX, or TXT file." ∧
    read_file fCsvEmpty true = wrapReadError (parseDelim ',' fCsvEmpty.content.data true) ∧
    (∃ e₀, "Error reading file: No columns to parse from file" =
      "Error reading file: " ++ e₀) :=
  ⟨(read_file_dispatch fPdf true).1 rfl rfl rfl,
   (read_file_dispatch fCsvEmpty true).2.1 rfl,
   (read_file_dispatch fCsvEmpty true).2.2.2
     "Error reading file: No columns to parse from file" rfl⟩

/-- The fixed output schema of each process. -/
def expectedCols (p : Process) : List String :=
  match p with
  | .certoMarket => ["Email", "First Name", "Phone"]
  | .ferreira => ["Email", "First Name", "Phone", "Store Number"]
  | .visitsReport =>
    ["Name", "Email", "Phone", "Registered Date", "First Order Date", "Spent $"]

/-- C5: the column names and their order of the output table built before
writing are a fixed constant of the selected process, independent of the
source table and of the chosen column mapping. -/
theorem output_columns_fixed (p : Process) (df : Table) (m : ColMapping)
    (t : Table) (h : buildOutput p df m = .ok t) :
    t.cols = expectedCols p := by
  cases p with
  | certoMarket =>
    simp only [buildOutput] at h
    cases h
    rfl
  | ferreira =>
    simp only [buildOutput] at h
    cases h
    rfl
  | visitsReport =>
    simp only [buildOutput, bind, Except.bind] at h
    cases hr : toDatetimeFmt (getCol df m.reg_date_col) with
    | error e => rw [hr] at h; cases h
    | ok reg =>
      rw [hr] at h
      cases hf : toDatetimeFmt (getCol df m.first_order_col) with
      | error e => rw [hf] at h; cases h
      | ok fo =>
        rw [hf] at h
        cases h
        rfl

/-- A concrete source table for the two standard processes. -/
def dfStdEx : Table := ⟨["e", "n", "p", "s"],
  [[some "A@B.C", some "JO", some "1", some "7"]]⟩

/-- A concrete column mapping for dfStdEx. -/
def mStdEx : ColMapping := ⟨"", "e", "p", "", "", "", "n", "s"⟩

/-- Witness for C5: the three processes evaluated at concrete inputs. -/
theorem output_columns_fixed_witness :
    (⟨["Email", "First Name", "Phone"],
        [[some "a@b.c", some "Jo", some "1"]]⟩ : Table).cols =
      expectedCols .certoMarket ∧
    (⟨["Email", "First Name", "Phone", "Store Number"],
        [[some "a@b.c", some "Jo", some "1", some "7"]]⟩ : Table).cols =
      expectedCols .ferreira ∧
    (⟨visitsHeaders,
        [[some "Bob Jones", some "a@b.com", some "555",
          some "2024-01-02", some "2024-01-02", some "5"]]⟩ : Table).cols =
      expectedCols .visitsReport :=
  ⟨output_columns_fixed .certoMarket dfStdEx mStdEx _ rfl,
   output_columns_fixed .ferreira dfStdEx mStdEx _ rfl,
   output_columns_fixed .visitsReport dfVisitsEx mVisitsEx _ rfl⟩

/-- Relation between a date-mapped source cell and the corresponding output
cell of a successful conversion: missing stays missing (hence written as the
empty string), and a present value was parsed and reformatted. -/
def dateCellRel (c c' : Cell) : Prop :=
  (c = none → c' = none ∧ cellToStr c' = "") ∧
  (∀ s, c = some s → ∃ d, parseDate s = some d ∧ c' = some (strftimeYmd d))

/-- C6 (amended): when the date-column conversion succeeds, every output
cell is the parsed date reformatted as YYYY-MM-DD, and every missing source
cell yields a missing output cell, written as the empty string.  (An
unparsable value instead makes the conversion fail; see the
counterexample.) -/
theorem date_column_spec (cells outs : List Cell)
    (h : toDatetimeFmt cells = .ok outs) :
    List.Forall₂ dateCellRel cells outs := by
  induction cells generalizing outs with
  | nil =>
    cases h
    exact List.Forall₂.nil
  | cons c cs ih =>
    unfold toDatetimeFmt at h
    cases hc : tdCell c with
    | error e => rw [hc] at h; cases h
    | ok c' =>
      rw [hc] at h
      cases hcs : toDatetimeFmt cs with
      | error e => rw [hcs] at h; cases h
      | ok cs' =>
        rw [hcs] at h
        cases h
        refine List.Forall₂.cons ?_ (ih _ hcs)
        constructor
        · intro hnone
          subst hnone
          cases hc
          exact ⟨rfl, rfl⟩
        · intro s hs
          subst hs
          simp only [tdCell] at hc
          cases hd : parseDate s with
          | none => rw [hd] at hc; cases hc
          | some d =>
            rw [hd] at hc
            cases hc
            exact ⟨d, rfl, rfl⟩

/-- Witness for C6 on a concrete column: one parsable date, one missing
value. -/
theorem date_column_spec_witness :
    List.Forall₂ dateCellRel [some "1/2/1999", none]
      [some "1999-01-02", none] :=
  date_column_spec [some "1/2/1999", none] [some "1999-01-02", none] rfl

/-- Counterexample for C6 as stated: a date-mapped cell holding a value that
does not parse as a date makes the whole transformation raise, instead of
propagating an empty output cell. -/
theorem date_unparsable_fails :
    buildOutput .visitsReport ⟨["r"], [[some "notadate"]]⟩
        ⟨"r", "r", "r", "r", "r", "r", "", ""⟩ =
      .error "Unknown datetime string format, unable to parse: notadate" :=
  rfl

/-- A chunk with no whitespace character in it. -/
def noWs (w : List Char) : Prop := ∀ c ∈ w, pyIsSpace c = false

theorem caseTable_no_space :
    ∀ p ∈ caseTable, pyIsSpace p.1 = false ∧ pyIsSpace p.2 = false := by
  decide

theorem pyIsSpace_pyLower (c : Char) : pyIsSpace (pyLower c) = pyIsSpace c := by
  unfold pyLower
  cases h : caseTable.find? (fun p => p.1 = c) with
  | none => rfl
  | some p =>
    have hp := List.mem_of_find?_eq_some h
    have hc : p.1 = c := by simpa using List.find?_some h
    rw [← hc, (caseTable_no_space p hp).1, (caseTable_no_space p hp).2]

theorem pyIsSpace_pyUpper (c : Char) : pyIsSpace (pyUpper c) = pyIsSpace c := by
  unfold pyUpper
  cases h : caseTable.find? (fun p => p.2 = c) with
  | none => rfl
  | some p =>
    have hp := List.mem_of_find?_eq_some h
    have hc : p.2 = c := by simpa using List.find?_some h
    rw [← hc, (caseTable_no_space p hp).1, (caseTable_no_space p hp).2]

theorem table_lower_upper : ∀ p ∈ caseTable, pyLower (pyUpper p.2) = p.2 := by
  decide

theorem table_lower_fst : ∀ p ∈ caseTable, pyLower p.1 = p.2 := by
  decide

theorem pyLower_pyUpper_pyLower (c : Char) :
    pyLower (pyUpper (pyLower c)) = pyLower c := by
  cases h : caseTable.find? (fun p => p.1 = c) with
  | some p =>
    have hp := List.mem_of_find?_eq_some h
    have hlc : pyLower c = p.2 := by unfold pyLower; rw [h]
    rw [hlc]
    exact table_lower_upper p hp
  | none =>
    have hlc : pyLower c = c := by unfold pyLower; rw [h]
    rw [hlc]
    cases h2 : caseTable.find? (fun p => p.2 = c) with
    | none =>
      have huc : pyUpper c = c := by unfold pyUpper; rw [h2]
      rw [huc, hlc]
    | some r =>
      have hr := List.mem_of_find?_eq_some h2
      have hrc : r.2 = c := by simpa using List.find?_some h2
      have huc : pyUpper c = r.1 := by unfold pyUpper; rw [h2]
      rw [huc, table_lower_fst r hr, hrc]

theorem map_pyLower_idem (l : List Char) :
    (l.map pyLower).map pyLower = l.map pyLower := by
  rw [List.map_map]
  exact List.map_congr_left fun a _ => pyLower_idem a

theorem fmtWord_ne_nil {w : List Char} (h : w ≠ []) : fmtWord w ≠ [] := by
  cases w with
  | nil => exact absurd rfl h
  | cons c cs => simp [fmtWord, pyCapitalize]

theorem noWs_map_pyLower {w : List Char} (h : noWs w) : noWs (w.map pyLower) := by
  intro c hc
  obtain ⟨a, ha, rfl⟩ := List.mem_map.mp hc
  rw [pyIsSpace_pyLower]
  exact h a ha

theorem noWs_pyCapitalize {w : List Char} (h : noWs w) : noWs (pyCapitalize w) := by
  cases w with
  | nil => intro c hc; cases hc
  | cons a cs =>
    intro c hc
    cases List.mem_cons.mp hc with
    | inl he =>
      subst he
      rw [pyIsSpace_pyUpper]
      exact h a (List.mem_cons_self a cs)
    | inr hm =>
      obtain ⟨b, hb, rfl⟩ := List.mem_map.mp hm
      rw [pyIsSpace_pyLower]
      exact h b (List.mem_cons_of_mem a hb)

theorem fmtWord_noWs {w : List Char} (h : noWs w) : noWs (fmtWord w) :=
  noWs_pyCapitalize (noWs_map_pyLower h)

theorem fmtWord_idem (w : List Char) : fmtWord (fmtWord w) = fmtWord w := by
  cases w with
  | nil => rfl
  | cons a cs =>
    simp only [fmtWord, pyCapitalize, List.map_cons, List.map_map, List.cons.injEq]
    refine ⟨congrArg pyUpper (pyLower_pyUpper_pyLower a), ?_⟩
    exact List.map_congr_left fun b _ => by
      simp only [Function.comp_apply, pyLower_idem]

theorem foldr_splitStep_noWs (l : List Char) :
    ∀ g ∈ l.foldr splitStep [], noWs g := by
  induction l with
  | nil => intro g hg; cases hg
  | cons c cs ih =>
    intro g hg
    rw [List.foldr_cons] at hg
    by_cases hsp : pyIsSpace c = true
    · rw [show splitStep c (cs.foldr splitStep []) = [] :: cs.foldr splitStep [] from by
        unfold splitStep; rw [if_pos hsp]] at hg
      cases List.mem_cons.mp hg with
      | inl he => subst he; intro x hx; cases hx
      | inr hm => exact ih g hm
    · have hsp' : pyIsSpace c = false := by simpa using hsp
      cases hf : cs.foldr splitStep [] with
      | nil =>
        rw [hf] at hg
        rw [show splitStep c [] = [[c]] from by unfold splitStep; rw [if_neg hsp]] at hg
        cases List.mem_cons.mp hg with
        | inl he =>
          subst he
          intro x hx
          cases List.mem_cons.mp hx with
          | inl hx1 => subst hx1; exact hsp'
          | inr hx2 => cases hx2
        | inr hm => cases hm
      | cons g0 rest =>
        rw [hf] at hg
        rw [show splitStep c (g0 :: rest) = (c :: g0) :: rest from by
          unfold splitStep; rw [if_neg hsp]] at hg
        cases List.mem_cons.mp hg with
        | inl he =>
          subst he
          intro x hx
          cases List.mem_cons.mp hx with
          | inl hx1 => subst hx1; exact hsp'
          | inr hx2 => exact ih g0 (hf ▸ List.mem_cons_self g0 rest) x hx2
        | inr hm => exact ih g (hf ▸ List.mem_cons_of_mem g0 hm)

/-- Every token produced by pySplit is nonempty and whitespace-free. -/
theorem pySplit_tokens (l : List Char) :
    ∀ w ∈ pySplit l, w ≠ [] ∧ noWs w := by
  intro w hw
  unfold pySplit at hw
  have hmem := List.mem_of_mem_filter hw
  have hkeep := List.of_mem_filter hw
  refine ⟨?_, foldr_splitStep_noWs l w hmem⟩
  intro he
  subst he
  simp at hkeep

theorem foldr_splitStep_word_cons (w : List Char) (hw : noWs w)
    (g : List Char) (rest : List (List Char)) :
    w.foldr splitStep (g :: rest) = (w ++ g) :: rest := by
  induction w with
  | nil => rfl
  | cons c cs ih =>
    have hc : pyIsSpace c = false := hw c (List.mem_cons_self c cs)
    have hcs : noWs cs := fun x hx => hw x (List.mem_cons_of_mem c hx)
    rw [List.foldr_cons, ih hcs]
    unfold splitStep
    rw [if_neg (by simp [hc])]
    rfl

theorem foldr_splitStep_word_nil :
    ∀ (w : List Char), noWs w → w ≠ [] → w.foldr splitStep [] = [w] := by
  intro w
  induction w with
  | nil => intro _ hne; exact absurd rfl hne
  | cons c cs ih =>
    intro hw _
    have hc : pyIsSpace c = false := hw c (List.mem_cons_self c cs)
    have hcs : noWs cs := fun x hx => hw x (List.mem_cons_of_mem c hx)
    rw [List.foldr_cons]
    cases cs with
    | nil =>
      unfold splitStep
      rw [if_neg (by simp [hc])]
      rfl
    | cons d ds =>
      rw [ih hcs (by simp)]
      unfold splitStep
      rw [if_neg (by simp [hc])]

/-- Splitting undoes joining: for nonempty whitespace-free words, pySplit of
the single-space join returns exactly the word list. -/
theorem pySplit_joinWords :
    ∀ (ws : List (List Char)), (∀ w ∈ ws, w ≠ [] ∧ noWs w) →
      pySplit (joinWords ws) = ws := by
  intro ws
  induction ws with
  | nil => intro _; rfl
  | cons w tail ih =>
    intro h
    obtain ⟨hne, hnw⟩ := h w (List.mem_cons_self w tail)
    have htail : ∀ x ∈ tail, x ≠ [] ∧ noWs x :=
      fun x hx => h x (List.mem_cons_of_mem w hx)
    have hwe : w.isEmpty = false := by
      cases w
      · exact absurd rfl hne
      · rfl
    cases tail with
    | nil =>
      show pySplit (joinWords [w]) = [w]
      unfold pySplit
      rw [show joinWords [w] = w from rfl, foldr_splitStep_word_nil w hnw hne]
      simp [List.filter, hwe]
    | cons x rest =>
      have ihx := ih htail
      unfold pySplit at ihx ⊢
      rw [show joinWords (w :: x :: rest) = w ++ ' ' :: joinWords (x :: rest) from rfl]
      rw [List.foldr_append, List.foldr_cons]
      rw [show splitStep ' ' ((joinWords (x :: rest)).foldr splitStep []) =
          [] :: (joinWords (x :: rest)).foldr splitStep [] from by
        unfold splitStep; rw [if_pos (by decide)]]
      rw [foldr_splitStep_word_cons w hnw [] _, List.append_nil, List.filter_cons]
      rw [if_pos (by simp [hwe]), ihx]

theorem format_name_tokens (s : String) :
    pySplit ((format_name s).data) = (pySplit s.data).map fmtWord := by
  show pySplit (joinWords ((pySplit s.data).map fmtWord)) = _
  apply pySplit_joinWords
  intro w hw
  obtain ⟨v, hv, rfl⟩ := List.mem_map.mp hw
  obtain ⟨hne, hnw⟩ := pySplit_tokens s.data v hv
  exact ⟨fmtWord_ne_nil hne, fmtWord_noWs hnw⟩

theorem format_name_idem (s : String) :
    format_name (format_name s) = format_name s := by
  have h1 : format_name (format_name s) =
      String.mk (joinWords ((pySplit (format_name s).data).map fmtWord)) := rfl
  rw [h1, format_name_tokens, List.map_map]
  have h2 : (pySplit s.data).map (fmtWord ∘ fmtWord) =
      (pySplit s.data).map fmtWord :=
    List.map_congr_left fun w _ => fmtWord_idem w
  rw [h2]
  rfl

/-- Whitespace-normalized text: any whitespace is a single plain space, no
two adjacent, and neither at the start nor at the end. -/
def wsNormalized (l : List Char) : Prop :=
  (∀ c ∈ l, pyIsSpace c = true → c = ' ') ∧
  List.Chain' (fun a b => pyIsSpace a = true → pyIsSpace b = false) l ∧
  (∀ c ∈ l.head?, pyIsSpace c = false) ∧
  (∀ c ∈ l.getLast?, pyIsSpace c = false)

theorem chain'_of_noWs {w : List Char} (h : noWs w) :
    List.Chain' (fun a b => pyIsSpace a = true → pyIsSpace b = false) w := by
  induction w with
  | nil => exact List.chain'_nil
  | cons a cs ih =>
    rw [List.chain'_cons']
    have hcs : noWs cs := fun x hx => h x (List.mem_cons_of_mem a hx)
    refine ⟨?_, ih hcs⟩
    intro b _ hsp
    rw [h a (List.mem_cons_self a cs)] at hsp
    exact Bool.noConfusion hsp

theorem joinWords_ne_nil :
    ∀ (ws : List (List Char)), ws ≠ [] → (∀ w ∈ ws, w ≠ []) →
      joinWords ws ≠ [] := by
  intro ws hws h
  cases ws with
  | nil => exact absurd rfl hws
  | cons w tail =>
    cases tail with
    | nil => exact h w (List.mem_cons_self w [])
    | cons x rest =>
      show w ++ ' ' :: joinWords (x :: rest) ≠ []
      simp

theorem joinWords_wsNormalized :
    ∀ (ws : List (List Char)), (∀ w ∈ ws, w ≠ [] ∧ noWs w) →
      wsNormalized (joinWords ws) := by
  intro ws
  induction ws with
  | nil =>
    intro _
    refine ⟨?_, List.chain'_nil, ?_, ?_⟩ <;> intro c hc <;> cases hc
  | cons w tail ih =>
    intro h
    obtain ⟨hne, hnw⟩ := h w (List.mem_cons_self w tail)
    have htail : ∀ x ∈ tail, x ≠ [] ∧ noWs x :=
      fun x hx => h x (List.mem_cons_of_mem w hx)
    cases tail with
    | nil =>
      show wsNormalized w
      refine ⟨?_, chain'_of_noWs hnw, ?_, ?_⟩
      · intro c hc hsp
        rw [hnw c hc] at hsp
        exact Bool.noConfusion hsp
      · intro c hc
        exact hnw c (List.mem_of_mem_head? hc)
      · intro c hc
        exact hnw c (List.mem_of_getLast?_eq_some hc)
    | cons x rest =>
      obtain ⟨hJ1, hJ2, hJ3, hJ4⟩ := ih htail
      have hJne : joinWords (x :: rest) ≠ [] :=
        joinWords_ne_nil (x :: rest) (by simp) (fun v hv => (htail v hv).1)
      show wsNormalized (w ++ ' ' :: joinWords (x :: rest))
      refine ⟨?_, ?_, ?_, ?_⟩
      · intro c hc hsp
        cases List.mem_append.mp hc with
        | inl hcw =>
          rw [hnw c hcw] at hsp
          exact Bool.noConfusion hsp
        | inr hcr =>
          cases List.mem_cons.mp hcr with
          | inl he => exact he
          | inr hm => exact hJ1 c hm hsp
      · rw [List.chain'_append]
        refine ⟨chain'_of_noWs hnw, ?_, ?_⟩
        · rw [List.chain'_cons']
          refine ⟨?_, hJ2⟩
          intro y hy _
          exact hJ3 y hy
        · intro a ha y _ hsp
          rw [hnw a (List.mem_of_getLast?_eq_some ha)] at hsp
          exact Bool.noConfusion hsp
      · intro c hc
        cases w with
        | nil => exact absurd rfl hne
        | cons a as =>
          have hc' : a = c := by simpa using hc
          rw [← hc']
          exact hnw a (List.mem_cons_self a as)
      · intro c hc
        rw [List.getLast?_append] at hc
        have : (' ' :: joinWords (x :: rest)).getLast? =
            (joinWords (x :: rest)).getLast? := by
          cases hJv : joinWords (x :: rest) with
          | nil => exact absurd hJv hJne
          | cons j js => simp [List.getLast?_cons_cons]
        rw [this] at hc
        cases hJv : (joinWords (x :: rest)).getLast? with
        | none =>
          rw [hJv] at hc
          cases hJg : (joinWords (x :: rest)) with
          | nil => exact absurd hJg hJne
          | cons j js =>
            rw [hJg] at hJv
            simp [List.getLast?_eq_getLast] at hJv
        | some d =>
          rw [hJv] at hc
          cases hc
          exact hJ4 c hJv

/-- C10: format_name normalizes whitespace — the result contains only
single plain spaces as separators, none leading, none trailing, no two
adjacent — and consequently format_name is idempotent. -/
theorem format_name_ws_normalized_idem (s : String) :
    wsNormalized (format_name s).data ∧
    format_name (format_name s) = format_name s := by
  refine ⟨?_, format_name_idem s⟩
  show wsNormalized (joinWords ((pySplit s.data).map fmtWord))
  apply joinWords_wsNormalized
  intro w hw
  obtain ⟨v, hv, rfl⟩ := List.mem_map.mp hw
  obtain ⟨hne, hnw⟩ := pySplit_tokens s.data v hv
  exact ⟨fmtWord_ne_nil hne, fmtWord_noWs hnw⟩

end Certo
